import Mathlib

/-!
# Verification development for `examples/scene_example/scene_example.hh`

The header defines the regular expressions used to rewrite object templates,
the message discriminants and the transport topics of the three plugin
services, and declares the functions of the scene generation pipeline.
The development embeds what the header itself defines: the two regular
expression macros (with an ECMAScript backtracking matcher, the grammar
`std::regex` uses by default), the message-type macros and the topic macros.
The components whose bodies live outside the header (grid layout, annotation
writer, per-iteration orchestration) are modelled from the specification; each
such definition says so in its doc comment.
-/

namespace SceneExample

/-! ## Regular expressions: syntax -/

/-- One item of a bracket expression, or a class escape used as an atom. -/
inductive ClassItem
  | lit (c : Char)
  | space
  | notSpace
  deriving DecidableEq, Repr

/-- Abstract syntax of the ECMAScript fragment the two macros use. -/
inductive Regex
  | empty
  | char (c : Char)
  | cls (negated : Bool) (items : List ClassItem)
  | seq (a b : Regex)
  | alt (a b : Regex)
  | star (greedy : Bool) (r : Regex)
  | group (idx : Nat) (r : Regex)
  deriving DecidableEq, Repr

/-- Characters matched by `\s` (the `space` class of the classic locale). -/
def isSpaceChar (c : Char) : Bool :=
  c = ' ' || c = '\t' || c = '\n' || c = '\x0b' || c = '\x0c' || c = '\r'

/-- Characters that may follow a backslash as an identity escape. -/
def isIdentityEscape (c : Char) : Bool :=
  c ∈ ['/', '\\', '"', '<', '>', '(', ')', '[', ']', '|', '*', '?', '+', '.', '^', '$', '-',
       '\x7b', '\x7d']

/-- A parenthesis level that is still open while parsing: the alternatives
already closed by `|` (latest first), the terms of the alternative being read
(latest first), and the capture index of the level (0 for the top level). -/
structure Frame where
  alts : List Regex
  cur : List Regex
  idx : Nat
  deriving DecidableEq, Repr

/-- Parser state: open levels (innermost first), next capture index, the
bracket expression being read (negated, items latest first, nothing read yet),
a pending backslash, and whether the last term is a `*` that a `?` may still
turn lazy. -/
structure PState where
  stack : List Frame
  next : Nat
  cls : Option (Bool × List ClassItem × Bool)
  esc : Bool
  afterStar : Bool
  deriving DecidableEq, Repr

/-- Sequence of the terms of one alternative, given latest first. -/
def closeAlt (cur : List Regex) : Regex :=
  cur.reverse.foldr Regex.seq Regex.empty

/-- Disjunction of a level: the closed alternatives followed by the current one. -/
def closeFrame (f : Frame) : Regex :=
  f.alts.foldl (fun acc a => Regex.alt a acc) (closeAlt f.cur)

/-- Append a term to the innermost level. -/
def pushTerm (st : PState) (t : Regex) : Option PState :=
  match st.stack with
  | [] => none
  | f :: fs => some { st with stack := { f with cur := t :: f.cur } :: fs, afterStar := false }

/-- Read one pattern character. Constructs outside the fragment are rejected. -/
def parseStep (st : PState) (c : Char) : Option PState :=
  match st.cls with
  | some (neg, items, fresh) =>
    if st.esc then
      if c = 's' then some { st with cls := some (neg, ClassItem.space :: items, false), esc := false }
      else if c = 'S' then
        some { st with cls := some (neg, ClassItem.notSpace :: items, false), esc := false }
      else if isIdentityEscape c then
        some { st with cls := some (neg, ClassItem.lit c :: items, false), esc := false }
      else none
    else if c = '\\' then some { st with esc := true }
    else if c = '^' && fresh then some { st with cls := some (true, items, false) }
    else if c = ']' then
      (pushTerm st (Regex.cls neg items.reverse)).map (fun s => { s with cls := none })
    else if c = '-' || c = '[' then none
    else some { st with cls := some (neg, ClassItem.lit c :: items, false) }
  | none =>
    if st.esc then
      if c = 's' then (pushTerm st (Regex.cls false [ClassItem.space])).map (fun s => { s with esc := false })
      else if c = 'S' then
        (pushTerm st (Regex.cls false [ClassItem.notSpace])).map (fun s => { s with esc := false })
      else if isIdentityEscape c then
        (pushTerm st (Regex.char c)).map (fun s => { s with esc := false })
      else none
    else if c = '\\' then some { st with esc := true }
    else if c = '[' then some { st with cls := some (false, [], true) }
    else if c = '(' then
      some { st with stack := ⟨[], [], st.next⟩ :: st.stack, next := st.next + 1, afterStar := false }
    else if c = ')' then
      match st.stack with
      | f :: g :: fs =>
        some { st with stack := { g with cur := Regex.group f.idx (closeFrame f) :: g.cur } :: fs,
                       afterStar := false }
      | _ => none
    else if c = '|' then
      match st.stack with
      | f :: fs =>
        some { st with stack := { f with alts := closeAlt f.cur :: f.alts, cur := [] } :: fs,
                       afterStar := false }
      | [] => none
    else if c = '*' then
      match st.stack with
      | f :: fs =>
        match f.cur with
        | t :: ts =>
          if st.afterStar then none
          else some { st with stack := { f with cur := Regex.star true t :: ts } :: fs,
                              afterStar := true }
        | [] => none
      | [] => none
    else if c = '?' then
      match st.stack with
      | f :: fs =>
        match f.cur with
        | Regex.star true t :: ts =>
          if st.afterStar then
            some { st with stack := { f with cur := Regex.star false t :: ts } :: fs,
                           afterStar := false }
          else none
        | _ => none
      | [] => none
    else if c = '+' || c = '.' || c = '^' || c = '$' || c = '\x7b' || c = '\x7d' || c = ']' then none
    else pushTerm st (Regex.char c)

/-- Read the characters of a pattern one after the other. -/
def parseChars : List Char → PState → Option PState
  | [], st => some st
  | c :: cs, st =>
    match parseStep st c with
    | some st' => parseChars cs st'
    | none => none

/-- Parse a pattern; `none` when it is malformed or outside the fragment. -/
def parseRegex (pattern : String) : Option Regex :=
  match parseChars pattern.data ⟨[⟨[], [], 0⟩], 1, none, false, false⟩ with
  | some st =>
    match st.stack, st.cls, st.esc with
    | [f], none, false => some (closeFrame f)
    | _, _, _ => none
  | none => none

/-! ## Regular expressions: backtracking matcher -/

/-- Matcher state: characters consumed so far, remaining input, and the
captures recorded so far as (group, start, end), latest first. -/
structure MState where
  pos : Nat
  rest : List Char
  caps : List (Nat × Nat × Nat)
  deriving DecidableEq, Repr

/-- Whether a class item accepts a character. -/
def ClassItem.accepts : ClassItem → Char → Bool
  | ClassItem.lit d, c => c = d
  | ClassItem.space, c => isSpaceChar c
  | ClassItem.notSpace, c => !isSpaceChar c

/-- Whether a (possibly negated) bracket expression accepts a character. -/
def classAccepts (negated : Bool) (items : List ClassItem) (c : Char) : Bool :=
  negated != items.any (fun i => i.accepts c)

/-- Capture indices that occur inside a regular expression. -/
def Regex.groups : Regex → List Nat
  | Regex.empty => []
  | Regex.char _ => []
  | Regex.cls _ _ => []
  | Regex.seq a b => a.groups ++ b.groups
  | Regex.alt a b => a.groups ++ b.groups
  | Regex.star _ r => r.groups
  | Regex.group i r => i :: r.groups

/-- Forget the captures of the given groups (done when a repetition starts a
new iteration). -/
def clearCaps (gs : List Nat) (s : MState) : MState :=
  { s with caps := s.caps.filter (fun e => !(gs.contains e.1)) }

/-- Repetition of the matcher `m`: a greedy loop tries one more iteration
before the continuation, a lazy loop tries the continuation first. An
iteration that consumes nothing is rejected. -/
def starLoop (m : MState → (MState → Option MState) → Option MState) (gs : List Nat)
    (greedy : Bool) : Nat → MState → (MState → Option MState) → Option MState
  | 0, s, k => k s
  | fuel + 1, s, k =>
    if greedy then
      match m (clearCaps gs s)
          (fun s' => if s.pos < s'.pos then starLoop m gs greedy fuel s' k else none) with
      | some r => some r
      | none => k s
    else
      match k s with
      | some r => some r
      | none =>
        m (clearCaps gs s)
          (fun s' => if s.pos < s'.pos then starLoop m gs greedy fuel s' k else none)

/-- Backtracking matcher in continuation-passing style: `matchRe r s k` is the
first way, in priority order, of matching `r` at `s` such that `k` accepts. -/
def matchRe : Regex → MState → (MState → Option MState) → Option MState
  | Regex.empty, s, k => k s
  | Regex.char c, s, k =>
    match s.rest with
    | x :: xs => if x = c then k ⟨s.pos + 1, xs, s.caps⟩ else none
    | [] => none
  | Regex.cls negated items, s, k =>
    match s.rest with
    | x :: xs => if classAccepts negated items x then k ⟨s.pos + 1, xs, s.caps⟩ else none
    | [] => none
  | Regex.seq a b, s, k => matchRe a s (fun s' => matchRe b s' k)
  | Regex.alt a b, s, k =>
    match matchRe a s k with
    | some r => some r
    | none => matchRe b s k
  | Regex.star greedy r, s, k =>
    starLoop (matchRe r) r.groups greedy (s.rest.length + 1) s k
  | Regex.group i r, s, k =>
    matchRe r s (fun s' => k ⟨s'.pos, s'.rest, (i, s.pos, s'.pos) :: s'.caps⟩)

/-- Result of a search: bounds of the matched span and the captures. -/
structure Match where
  start : Nat
  stop : Nat
  caps : List (Nat × Nat × Nat)
  deriving DecidableEq, Repr

/-- Bounds of a capture group in a match, when the group took part. -/
def Match.group (m : Match) (i : Nat) : Option (Nat × Nat) :=
  (m.caps.find? (fun e => e.1 = i)).map (fun e => e.2)

/-- Leftmost match of `re` in the input whose first `pos` characters were
already skipped. -/
def searchFrom (re : Regex) : Nat → List Char → Option Match
  | pos, [] =>
    match matchRe re ⟨pos, [], []⟩ some with
    | some s => some ⟨pos, s.pos, s.caps⟩
    | none => none
  | pos, x :: xs =>
    match matchRe re ⟨pos, x :: xs, []⟩ some with
    | some s => some ⟨pos, s.pos, s.caps⟩
    | none => searchFrom re (pos + 1) xs

/-- The search `std::regex_search` performs with a pattern given as text. -/
def regex_search (pattern : String) (text : List Char) : Option Match :=
  match parseRegex pattern with
  | some re => searchFrom re 0 text
  | none => none

/-- The characters of the span `[start, stop)` of a text. -/
def slice (text : List Char) (start stop : Nat) : List Char :=
  (text.drop start).take (stop - start)

/-! ## Macros of the header -/

/-- Matches name field in `<model name="">` XML tag. -/
def REGEX_XML_MODEL : String := "<model name=(\"([^\"]|\"\")*\")>"

/-- Matches string enclosed in `<uid>` XML tags. -/
def REGEX_XML_UID : String := "<uid>[\\s\\S]*?<\\/uid>"

/-! ## Reference notions for the two patterns -/

/-- The opening tag `<uid>`. -/
def uidOpen : List Char := ['<', 'u', 'i', 'd', '>']

/-- The closing tag `</uid>`. -/
def uidClose : List Char := ['<', '/', 'u', 'i', 'd', '>']

/-- Whether `pat` occurs in `text` at offset `i`. -/
def occursAt (pat text : List Char) (i : Nat) : Bool := pat.isPrefixOf (text.drop i)

/-- Offset of the first occurrence of `pat` in a text, by plain scanning. -/
def firstOcc (pat : List Char) : List Char → Option Nat
  | [] => if pat.isPrefixOf [] then some 0 else none
  | x :: xs => if pat.isPrefixOf (x :: xs) then some 0 else (firstOcc pat xs).map (fun j => j + 1)

/-- The pattern that matches the characters of `l` one after the other, then `r`. -/
def lits (l : List Char) (r : Regex) : Regex :=
  l.foldr (fun c acc => Regex.seq (Regex.char c) acc) r

/-- The bracket expression `[\s\S]`. -/
def anyCls : Regex := Regex.cls false [ClassItem.space, ClassItem.notSpace]

/-- Syntax tree of `REGEX_XML_UID`. -/
def uidRe : Regex := lits uidOpen (Regex.seq (Regex.star false anyCls) (lits uidClose Regex.empty))

/-- First suffix of the input, from `pos` on, that the continuation accepts. -/
def lazyScan (k : MState → Option MState) (caps : List (Nat × Nat × Nat)) :
    Nat → List Char → Option MState
  | pos, [] => k ⟨pos, [], caps⟩
  | pos, x :: xs =>
    match k ⟨pos, x :: xs, caps⟩ with
    | some r => some r
    | none => lazyScan k caps (pos + 1) xs

/-- Continuation of the lazy repetition in the identifier pattern: the closing tag. -/
def closeK (s : MState) : Option MState :=
  if uidClose.isPrefixOf s.rest then some ⟨s.pos + 6, s.rest.drop 6, s.caps⟩ else none

/-- First occurrence of the opening tag, then first occurrence of the closing
tag after it: the span the identifier pattern is documented to match. -/
def uidSpan (pos : Nat) (text : List Char) : Option Match :=
  match firstOcc uidOpen text with
  | none => none
  | some i =>
    (firstOcc uidClose (text.drop (i + 5))).map (fun j => ⟨pos + i, pos + i + 5 + j + 6, []⟩)

/-- The text `<model name=` that opens the tag. -/
def modelOpen : List Char := ['<', 'm', 'o', 'd', 'e', 'l', ' ', 'n', 'a', 'm', 'e', '=']

/-- One iteration of the repetition in the model pattern: `[^"]|""`, captured as group 2. -/
def modelItem : Regex :=
  Regex.group 2 (Regex.alt (Regex.seq (Regex.cls true [ClassItem.lit '"']) Regex.empty)
    (Regex.seq (Regex.char '"') (Regex.seq (Regex.char '"') Regex.empty)))

/-- Syntax tree of `REGEX_XML_MODEL`. -/
def modelRe : Regex :=
  lits modelOpen
    (Regex.seq
      (Regex.group 1 (Regex.seq (Regex.char '"')
        (Regex.seq (Regex.star true modelItem) (Regex.seq (Regex.char '"') Regex.empty))))
      (Regex.seq (Regex.char '>') Regex.empty))

/-! ## API topics -/

/-- Topic monitored by CameraUtils plugin for incoming requests. -/
def CAMERA_UTILS_TOPIC : String := "~/gazebo-utils/camera_utils"

/-- Topic for receiving replies from CameraUtils plugin. -/
def CAMERA_UTILS_RESPONSE_TOPIC : String := "~/gazebo-utils/camera_utils/response"

/-- Topic monitored by VisualUtils plugin for incoming requests. -/
def VISUAL_UTILS_TOPIC : String := "~/gazebo-utils/visual_utils"

/-- Topic for receiving replies from VisualUtils plugin. -/
def VISUAL_UTILS_RESPONSE_TOPIC : String := "~/gazebo-utils/visual_utils/response"

/-- Topic monitored by WorldUtils plugin for incoming requests. -/
def WORLD_UTILS_TOPIC : String := "~/gazebo-utils/world_utils"

/-- Topic for receiving replies from WorldUtils plugin. -/
def WORLD_UTILS_RESPONSE_TOPIC : String := "~/gazebo-utils/world_utils/response"

/-- The three plugins the example talks to. -/
inductive Plugin
  | CameraUtils
  | VisualUtils
  | WorldUtils
  deriving DecidableEq, Repr

/-- Topic on which a plugin receives requests. -/
def requestTopic : Plugin → String
  | Plugin.CameraUtils => CAMERA_UTILS_TOPIC
  | Plugin.VisualUtils => VISUAL_UTILS_TOPIC
  | Plugin.WorldUtils => WORLD_UTILS_TOPIC

/-- Topic on which a plugin publishes its replies. -/
def responseTopic : Plugin → String
  | Plugin.CameraUtils => CAMERA_UTILS_RESPONSE_TOPIC
  | Plugin.VisualUtils => VISUAL_UTILS_RESPONSE_TOPIC
  | Plugin.WorldUtils => WORLD_UTILS_RESPONSE_TOPIC

/-! ## Macros for custom messages -/

/-- A qualified enumerator of a custom message, `package::msgs::message::value`,
the form every message macro of the header expands to. -/
structure EnumValue where
  package : String
  message : String
  value : String
  deriving DecidableEq, Repr

/-- Request to move camera to given pose. -/
def MOVE_REQUEST : EnumValue := ⟨"camera_utils", "CameraUtilsRequest", "MOVE"⟩

/-- Response acknowledging move camera request. -/
def MOVE_RESPONSE : EnumValue := ⟨"camera_utils", "CameraUtilsResponse", "MOVE"⟩

/-- Request to capture a frame and save it to disk. -/
def CAPTURE_REQUEST : EnumValue := ⟨"camera_utils", "CameraUtilsRequest", "CAPTURE"⟩

/-- Response acknowledging captured frame. -/
def CAPTURE_RESPONSE : EnumValue := ⟨"camera_utils", "CameraUtilsResponse", "CAPTURE"⟩

/-- Request 3D to 2D point projection. -/
def PROJECTION_REQUEST : EnumValue := ⟨"camera_utils", "CameraUtilsRequest", "PROJECTION"⟩

/-- Response 3D to 2D point projection. -/
def PROJECTION_RESPONSE : EnumValue := ⟨"camera_utils", "CameraUtilsResponse", "PROJECTION"⟩

/-- Request update. -/
def UPDATE : EnumValue := ⟨"visual_utils", "VisualUtilsRequest", "UPDATE"⟩

/-- Visual updated response. -/
def UPDATED : EnumValue := ⟨"visual_utils", "VisualUtilsResponse", "UPDATED"⟩

/-- Spawn entity. -/
def SPAWN : EnumValue := ⟨"world_utils", "WorldUtilsRequest", "SPAWN"⟩

/-- Move entity. -/
def WORLD_MOVE : EnumValue := ⟨"world_utils", "WorldUtilsRequest", "MOVE"⟩

/-- Start or stop physics simulation. -/
def PHYSICS : EnumValue := ⟨"world_utils", "WorldUtilsRequest", "PHYSICS"⟩

/-- Success status of a WorldUtils response (the header leaves it undocumented). -/
def SUCCESS : EnumValue := ⟨"world_utils", "WorldUtilsResponse", "SUCCESS"⟩

/-- Spawn custom object. -/
def CUSTOM : EnumValue := ⟨"world_utils", "Object", "CUSTOM"⟩

/-- Spawn custom light object. -/
def CUSTOM_LIGHT : EnumValue := ⟨"world_utils", "Object", "CUSTOM_LIGHT"⟩

/-- Every message macro the header defines, by name, in source order. -/
def messageMacros : List (String × EnumValue) :=
  [("MOVE_REQUEST", MOVE_REQUEST), ("MOVE_RESPONSE", MOVE_RESPONSE),
   ("CAPTURE_REQUEST", CAPTURE_REQUEST), ("CAPTURE_RESPONSE", CAPTURE_RESPONSE),
   ("PROJECTION_REQUEST", PROJECTION_REQUEST), ("PROJECTION_RESPONSE", PROJECTION_RESPONSE),
   ("UPDATE", UPDATE), ("UPDATED", UPDATED),
   ("SPAWN", SPAWN), ("WORLD_MOVE", WORLD_MOVE), ("PHYSICS", PHYSICS), ("SUCCESS", SUCCESS),
   ("CUSTOM", CUSTOM), ("CUSTOM_LIGHT", CUSTOM_LIGHT)]

/-- Names of the macros that expand to a request discriminant of the camera channel. -/
def cameraRequestMacros : List String :=
  (messageMacros.filter (fun m => m.2.message = "CameraUtilsRequest")).map Prod.fst

/-- The macros that expand to the `CameraUtilsResponse` enumerator of the same
operation as a request. -/
def cameraResponsesFor (request : EnumValue) : List (String × EnumValue) :=
  messageMacros.filter (fun m =>
    m.2.package = request.package ∧ m.2.message = "CameraUtilsResponse" ∧
      m.2.value = request.value)

/-! ## Grid layout (section 4.1) -/

/-- Modelled from the spec: an object to place, identified by its stable name
(`ObjectGrid.hh`, which holds the object class, is not among the sources). -/
abbrev ObjectSpec := String

/-- Modelled from the spec: a grid cell, identified by (row, column). -/
abbrev Cell := Nat × Nat

/-- Modelled from the spec: the only failure of placement. -/
inductive PlaceError
  | GridFull
  deriving DecidableEq, Repr

deriving instance DecidableEq for Except

/-- Modelled from the spec: the fixed-size grid of `ObjectGrid.hh` (not among
the sources) as section 4.1 describes it: the set of free cells is maintained,
next to the objects placed so far with their cells. A cell is occupied exactly
when it is no longer in `free`. -/
structure GridLayout where
  rows : Nat
  columns : Nat
  free : List Cell
  occupied : List (ObjectSpec × Cell)
  deriving DecidableEq, Repr

/-- Modelled from the spec: all cells of a `rows` by `columns` grid, row by row. -/
def allCells (rows columns : Nat) : List Cell :=
  List.product (List.range rows) (List.range columns)

/-- Modelled from the spec: the empty grid created at the start of an
iteration; every cell is free, capacity is `rows * columns`. -/
def GridLayout.create (rows columns : Nat) : GridLayout :=
  ⟨rows, columns, allCells rows columns, []⟩

/-- Modelled from the spec: "draw one cell uniformly at random from the
currently free set, mark it occupied". The random number `r` selects the cell
of index `r % free.length`; nothing is drawn from an empty free set. -/
def GridLayout.drawCell (g : GridLayout) (obj : ObjectSpec) (r : Nat) :
    Option (Cell × GridLayout) :=
  match g.free[r % g.free.length]? with
  | some c =>
    some (c, { g with free := g.free.eraseIdx (r % g.free.length),
                      occupied := (obj, c) :: g.occupied })
  | none => none

/-- Modelled from the spec: "for each object, draw one cell ..., and repeat".
`rng i` is the random number of the `i`-th draw. -/
def GridLayout.placeEach (rng : Nat → Nat) :
    List ObjectSpec → Nat → GridLayout → GridLayout × List (ObjectSpec × Cell)
  | [], _, g => (g, [])
  | obj :: objs, i, g =>
    match g.drawCell obj (rng i) with
    | some (c, g') =>
      let res := GridLayout.placeEach rng objs (i + 1) g'
      (res.1, (obj, c) :: res.2)
    | none => (g, [])

/-- Modelled from the spec: `place(objects) -> Result<sequence<(ObjectSpec,
Cell)>, GridFull>` of section 4.1. The capacity check comes before any
placement; the grid after the call is returned next to the result. -/
def GridLayout.place (g : GridLayout) (objects : List ObjectSpec) (rng : Nat → Nat) :
    GridLayout × Except PlaceError (List (ObjectSpec × Cell)) :=
  if g.free.length < objects.length then (g, Except.error PlaceError.GridFull)
  else
    let res := GridLayout.placeEach rng objects 0 g
    (res.1, Except.ok res.2)

/-! ## Annotation writer (section 4.5) -/

/-- Modelled from the spec: image-space bounding box of an annotation, in
pixel coordinates. -/
structure BoundingBox where
  xmin : Int
  ymin : Int
  xmax : Int
  ymax : Int
  deriving DecidableEq, Repr

/-- Modelled from the spec: persisted record of section 3, object identifier
and clipped bounding box. -/
structure AnnotationRecord where
  name : String
  box : BoundingBox
  deriving DecidableEq, Repr

/-- Modelled from the spec: "clips each coordinate to the image dimensions"
(the body of `storeAnnotations` is not among the sources): a coordinate is
brought into `[0, limit]`. -/
def clipCoord (v : Int) (limit : Nat) : Int :=
  max 0 (min v limit)

/-- Modelled from the spec: grow a box so that it encloses one more point. -/
def BoundingBox.extend (b : BoundingBox) (p : Int × Int) : BoundingBox :=
  ⟨min b.xmin p.1, min b.ymin p.2, max b.xmax p.1, max b.ymax p.2⟩

/-- Modelled from the spec: "the minimal axis-aligned bounding box enclosing"
the projected points of one object; there is none for an empty list. -/
def enclosingBox : List (Int × Int) → Option BoundingBox
  | [] => none
  | p :: ps => some (ps.foldl BoundingBox.extend ⟨p.1, p.2, p.1, p.2⟩)

/-- Modelled from the spec: clip the four coordinates of a box to the image. -/
def BoundingBox.clip (b : BoundingBox) (width height : Nat) : BoundingBox :=
  ⟨clipCoord b.xmin width, clipCoord b.ymin height, clipCoord b.xmax width,
    clipCoord b.ymax height⟩

/-- Modelled from the spec: the record of one object, section 4.5: enclosing
box of its projected points, clipped. An object without projected points is
omitted; an object projected outside the frame gets a degenerate box. -/
def annotateObject (width height : Nat) (obj : String × List (Int × Int)) : Option AnnotationRecord :=
  match enclosingBox obj.2 with
  | some b => some ⟨obj.1, b.clip width height⟩
  | none => none

/-- Modelled from the spec: `write(iteration, objects, projectedPoints,
imageSize)` of section 4.5, as the list of records appended to the annotation
artifact of the iteration. -/
def writeAnnotations (objects : List (String × List (Int × Int))) (width height : Nat) :
    List AnnotationRecord :=
  objects.filterMap (annotateObject width height)

/-- Ordered box: lower corner below upper corner. -/
def BoundingBox.ordered (b : BoundingBox) : Prop :=
  b.xmin ≤ b.xmax ∧ b.ymin ≤ b.ymax

/-! ## Request coordination and iteration state machine (sections 4.3, 4.4) -/

/-- Modelled from the spec: the three logical request/response channels. -/
inductive Channel
  | world
  | visual
  | camera
  deriving DecidableEq, Repr

/-- Modelled from the spec: stages of one iteration, section 4.4, in order. -/
inductive Stage
  | BUILD_LAYOUT
  | SPAWN_SENT
  | SPAWN_ACKED
  | CAMERA_MOVE_SENT
  | CAMERA_MOVE_ACKED
  | VISUAL_UPDATE_SENT
  | VISUAL_UPDATE_ACKED
  | CAPTURE_SENT
  | CAPTURE_ACKED
  | PROJECTION_SENT
  | PROJECTION_ACKED
  | ANNOTATE
  | DONE
  deriving DecidableEq, Repr

/-- Modelled from the spec: the successor of a stage in the chain
`BUILD_LAYOUT → SPAWN_SENT → ... → ANNOTATE → DONE`. -/
def Stage.next : Stage → Stage
  | Stage.BUILD_LAYOUT => Stage.SPAWN_SENT
  | Stage.SPAWN_SENT => Stage.SPAWN_ACKED
  | Stage.SPAWN_ACKED => Stage.CAMERA_MOVE_SENT
  | Stage.CAMERA_MOVE_SENT => Stage.CAMERA_MOVE_ACKED
  | Stage.CAMERA_MOVE_ACKED => Stage.VISUAL_UPDATE_SENT
  | Stage.VISUAL_UPDATE_SENT => Stage.VISUAL_UPDATE_ACKED
  | Stage.VISUAL_UPDATE_ACKED => Stage.CAPTURE_SENT
  | Stage.CAPTURE_SENT => Stage.CAPTURE_ACKED
  | Stage.CAPTURE_ACKED => Stage.PROJECTION_SENT
  | Stage.PROJECTION_SENT => Stage.PROJECTION_ACKED
  | Stage.PROJECTION_ACKED => Stage.ANNOTATE
  | Stage.ANNOTATE => Stage.DONE
  | Stage.DONE => Stage.DONE

/-- Modelled from the spec: the channel whose acknowledgment a `*_SENT` stage
waits for (spawn on the world channel, visual update on the visual channel,
camera move, capture and projection on the camera channel). -/
def Stage.awaits : Stage → Option Channel
  | Stage.SPAWN_SENT => some Channel.world
  | Stage.CAMERA_MOVE_SENT => some Channel.camera
  | Stage.VISUAL_UPDATE_SENT => some Channel.visual
  | Stage.CAPTURE_SENT => some Channel.camera
  | Stage.PROJECTION_SENT => some Channel.camera
  | _ => none

/-- Modelled from the spec: per-channel synchronization record of section 3,
reduced to its acknowledgment flag (the payload plays no part in control). -/
structure PendingRequest where
  acknowledged : Bool
  deriving DecidableEq, Repr

/-- Modelled from the spec: state of one iteration, the stage and the
`PendingRequest` of each channel (`none` when no request is outstanding). -/
structure Orchestrator where
  stage : Stage
  world : Option PendingRequest
  visual : Option PendingRequest
  camera : Option PendingRequest
  deriving DecidableEq, Repr

/-- The pending request of a channel. -/
def Orchestrator.pending (s : Orchestrator) : Channel → Option PendingRequest
  | Channel.world => s.world
  | Channel.visual => s.visual
  | Channel.camera => s.camera

/-- Replace the pending request of a channel. -/
def Orchestrator.setPending (s : Orchestrator) (c : Channel) (p : Option PendingRequest) :
    Orchestrator :=
  match c with
  | Channel.world => { s with world := p }
  | Channel.visual => { s with visual := p }
  | Channel.camera => { s with camera := p }

/-- Modelled from the spec: `send(channel, request)`; the record is created,
flag unset, when the request is sent. -/
def send (c : Channel) (s : Orchestrator) : Orchestrator :=
  s.setPending c (some ⟨false⟩)

/-- Modelled from the spec: the response callback of a channel, which sets the
acknowledgment flag of the channel's record under its lock. -/
def onResponse (c : Channel) (s : Orchestrator) : Orchestrator :=
  match s.pending c with
  | some _ => s.setPending c (some ⟨true⟩)
  | none => s

/-- Callback function for CameraUtils response (declared in the header; body
modelled from the spec). -/
def onCameraUtilsResponse (s : Orchestrator) : Orchestrator := onResponse Channel.camera s

/-- Callback function for VisualUtils response (declared in the header; body
modelled from the spec). -/
def onVisualUtilsResponse (s : Orchestrator) : Orchestrator := onResponse Channel.visual s

/-- Callback function for WorldUtils response (declared in the header; body
modelled from the spec). -/
def onWorldUtilsResponse (s : Orchestrator) : Orchestrator := onResponse Channel.world s

/-- Modelled from the spec: one poll of the wait loop of section 4.3. Under the
channel lock the flag is checked; when set, the record is consumed and the
caller need not wait, otherwise the caller should wait. The Boolean is "true
if process should wait", as the header documents for `waitFor*`. -/
def awaitPoll (c : Channel) (s : Orchestrator) : Bool × Orchestrator :=
  match s.pending c with
  | some ⟨true⟩ => (false, s.setPending c none)
  | _ => (true, s)

/-- Wait for camera to move to new pose (declared in the header; body
modelled from the spec). -/
def waitForMove (s : Orchestrator) : Bool × Orchestrator := awaitPoll Channel.camera s

/-- Wait for visuals to update (declared in the header; body modelled from
the spec). -/
def waitForVisuals (s : Orchestrator) : Bool × Orchestrator := awaitPoll Channel.visual s

/-- Wait for camera to save frame to disk (declared in the header; body
modelled from the spec). -/
def waitForCamera (s : Orchestrator) : Bool × Orchestrator := awaitPoll Channel.camera s

/-- Wait for projected points (declared in the header; body modelled from the
spec). -/
def waitForProjections (s : Orchestrator) : Bool × Orchestrator := awaitPoll Channel.camera s

/-- After a poll: stay in the stage while waiting, else move to its successor. -/
def afterPoll (s : Orchestrator) (r : Bool × Orchestrator) : Orchestrator :=
  if r.1 then r.2 else { r.2 with stage := s.stage.next }

/-- Modelled from the spec: one action of the orchestrator thread in the state
machine of section 4.4. `layoutOk` says whether the layout could be built;
on `GridFull` the iteration is abandoned. -/
def orchestrate (layoutOk : Bool) (s : Orchestrator) : Orchestrator :=
  match s.stage with
  | Stage.BUILD_LAYOUT =>
    if layoutOk then { send Channel.world s with stage := Stage.SPAWN_SENT }
    else { s with stage := Stage.DONE }
  | Stage.SPAWN_SENT => afterPoll s (awaitPoll Channel.world s)
  | Stage.SPAWN_ACKED => { send Channel.camera s with stage := Stage.CAMERA_MOVE_SENT }
  | Stage.CAMERA_MOVE_SENT => afterPoll s (waitForMove s)
  | Stage.CAMERA_MOVE_ACKED => { send Channel.visual s with stage := Stage.VISUAL_UPDATE_SENT }
  | Stage.VISUAL_UPDATE_SENT => afterPoll s (waitForVisuals s)
  | Stage.VISUAL_UPDATE_ACKED => { send Channel.camera s with stage := Stage.CAPTURE_SENT }
  | Stage.CAPTURE_SENT => afterPoll s (waitForCamera s)
  | Stage.CAPTURE_ACKED => { send Channel.camera s with stage := Stage.PROJECTION_SENT }
  | Stage.PROJECTION_SENT => afterPoll s (waitForProjections s)
  | Stage.PROJECTION_ACKED => { s with stage := Stage.ANNOTATE }
  | Stage.ANNOTATE => { s with stage := Stage.DONE }
  | Stage.DONE => s

/-- Modelled from the spec: what can happen next, an action of the
orchestrator thread or a response delivered by the messaging subsystem on
some channel (section 5: the only source of concurrency). -/
inductive Event
  | orchestrator (layoutOk : Bool)
  | response (c : Channel)
  deriving DecidableEq, Repr

/-- Modelled from the spec: effect of one event. -/
def step (s : Orchestrator) : Event → Orchestrator
  | Event.orchestrator layoutOk => orchestrate layoutOk s
  | Event.response Channel.world => onWorldUtilsResponse s
  | Event.response Channel.visual => onVisualUtilsResponse s
  | Event.response Channel.camera => onCameraUtilsResponse s

/-- Modelled from the spec: start of an iteration, nothing outstanding. -/
def Orchestrator.start : Orchestrator := ⟨Stage.BUILD_LAYOUT, none, none, none⟩

/-- State after a sequence of events, interleaved in any way. -/
def run : Orchestrator → List Event → Orchestrator
  | s, [] => s
  | s, e :: es => run (step s e) es

/-- At most one request is outstanding, on the channel the stage waits for. -/
def onlyAwaitedPending (s : Orchestrator) : Prop :=
  ∀ c, (s.pending c).isSome = true → s.stage.awaits = some c

/-! ## Theorems -/

/-! ### The identifier pattern `REGEX_XML_UID` -/

theorem parse_uid : parseRegex REGEX_XML_UID = some uidRe := by decide

theorem matchRe_lits (l : List Char) (r : Regex) (k : MState → Option MState) :
    ∀ s : MState, matchRe (lits l r) s k =
      if l.isPrefixOf s.rest then matchRe r ⟨s.pos + l.length, s.rest.drop l.length, s.caps⟩ k
      else none := by
  induction l with
  | nil => intro s; simp [lits]
  | cons c l ih =>
    intro s
    obtain ⟨p, rest, caps⟩ := s
    cases rest with
    | nil => simp [lits, matchRe]
    | cons x xs =>
      have h := ih ⟨p + 1, xs, caps⟩
      simp only [lits] at h
      simp only [lits, List.foldr_cons, matchRe, h, List.isPrefixOf]
      by_cases hx : x = c
      · subst hx; simp [Nat.add_assoc, Nat.add_comm 1]
      · have : ¬ c = x := fun e => hx e.symm
        simp [hx, this]

theorem anyCls_accepts (c : Char) :
    classAccepts false [ClassItem.space, ClassItem.notSpace] c = true := by
  cases h : isSpaceChar c <;> simp [classAccepts, ClassItem.accepts, h]

theorem clearCaps_nil (s : MState) : clearCaps [] s = s := by
  simp [clearCaps]

theorem matchRe_anyCls (s : MState) (k : MState → Option MState) :
    matchRe anyCls s k =
      match s.rest with
      | _ :: xs => k ⟨s.pos + 1, xs, s.caps⟩
      | [] => none := by
  obtain ⟨p, rest, caps⟩ := s
  cases rest <;> simp [anyCls, matchRe, anyCls_accepts]

theorem starLoop_lazy_any (k : MState → Option MState) (caps : List (Nat × Nat × Nat)) :
    ∀ (rest : List Char) (fuel pos : Nat), rest.length < fuel →
      starLoop (matchRe anyCls) [] false fuel ⟨pos, rest, caps⟩ k = lazyScan k caps pos rest := by
  intro rest
  induction rest with
  | nil =>
    intro fuel pos h
    cases fuel with
    | zero => simp at h
    | succ f =>
      simp only [starLoop, clearCaps_nil, matchRe_anyCls, lazyScan]
      cases k ⟨pos, [], caps⟩ <;> simp
  | cons x xs ih =>
    intro fuel pos h
    cases fuel with
    | zero => simp at h
    | succ f =>
      have hf : xs.length < f := by simpa using h
      simp only [starLoop, clearCaps_nil, matchRe_anyCls, lazyScan, ih f (pos + 1) hf]
      simp

theorem occursAt_drop (pat l : List Char) (n j : Nat) :
    occursAt pat (l.drop n) j = occursAt pat l (n + j) := by
  simp [occursAt, List.drop_drop, Nat.add_comm]

theorem occursAt_cons_succ (pat : List Char) (x : Char) (xs : List Char) (j : Nat) :
    occursAt pat (x :: xs) (j + 1) = occursAt pat xs j := by
  simp [occursAt]

theorem occursAt_zero_false (pat l : List Char) (h : ¬ pat.isPrefixOf l = true) :
    occursAt pat l 0 = false :=
  Bool.eq_false_iff.mpr h

theorem firstOcc_eq_some (pat : List Char) :
    ∀ (l : List Char) (j : Nat), firstOcc pat l = some j ↔
      (occursAt pat l j = true ∧ j ≤ l.length ∧ ∀ i, i < j → occursAt pat l i = false) := by
  intro l
  induction l with
  | nil =>
    intro j
    cases j with
    | zero => simp [firstOcc, occursAt]
    | succ j =>
      simp only [firstOcc, occursAt, List.drop_nil]
      constructor
      · intro h
        split at h <;> simp at h
      · rintro ⟨_, h, _⟩
        simp at h
  | cons x xs ih =>
    intro j
    by_cases hp : pat.isPrefixOf (x :: xs) = true
    · simp only [firstOcc, hp, if_true]
      constructor
      · intro h
        have : j = 0 := by simpa using h.symm
        subst this
        simp [occursAt, hp]
      · rintro ⟨_, _, h3⟩
        cases j with
        | zero => rfl
        | succ j =>
          have := h3 0 (Nat.succ_pos j)
          simp [occursAt, hp] at this
    · simp only [firstOcc, hp]
      cases j with
      | zero =>
        simp [occursAt, hp]
      | succ j =>
        simp only [Bool.false_eq_true, if_false, Option.map_eq_some', Nat.add_right_cancel_iff,
          exists_eq_right, ih j, occursAt_cons_succ, List.length_cons, Nat.add_le_add_iff_right]
        constructor
        · rintro ⟨h1, h2, h3⟩
          refine ⟨h1, h2, ?_⟩
          intro i hi
          cases i with
          | zero => exact occursAt_zero_false pat _ hp
          | succ i => rw [occursAt_cons_succ]; exact h3 i (by omega)
        · rintro ⟨h1, h2, h3⟩
          refine ⟨h1, h2, ?_⟩
          intro i hi
          have := h3 (i + 1) (by omega)
          rwa [occursAt_cons_succ] at this

theorem occursAt_le_length (pat l : List Char) (hp : pat ≠ []) (j : Nat)
    (h : occursAt pat l j = true) : j + pat.length ≤ l.length := by
  have h1 : pat <+: l.drop j := by simpa [occursAt, List.isPrefixOf_iff_prefix] using h
  have h2 := h1.length_le
  simp at h2
  have : 0 < pat.length := List.length_pos.mpr hp
  omega

theorem firstOcc_eq_none (pat : List Char) (l : List Char) :
    firstOcc pat l = none ↔ ∀ j, occursAt pat l j = false := by
  induction l with
  | nil =>
    simp only [firstOcc, occursAt, List.drop_nil]
    constructor
    · intro h j
      cases pat with
      | nil => simp [List.isPrefixOf] at h
      | cons c cs => rfl
    · intro h
      simp [h 0]
  | cons x xs ih =>
    by_cases hp : pat.isPrefixOf (x :: xs) = true
    · simp only [firstOcc, hp, if_true]
      constructor
      · intro h; simp at h
      · intro h
        have := h 0
        simp [occursAt, hp] at this
    · simp only [firstOcc, hp, Bool.false_eq_true, if_false, Option.map_eq_none', ih]
      constructor
      · intro h j
        cases j with
        | zero => exact occursAt_zero_false pat _ hp
        | succ j => rw [occursAt_cons_succ]; exact h j
      · intro h j
        have := h (j + 1)
        rwa [occursAt_cons_succ] at this

theorem firstOcc_drop_none (pat l : List Char) (n : Nat) (h : firstOcc pat l = none) :
    firstOcc pat (l.drop n) = none := by
  rw [firstOcc_eq_none] at h ⊢
  intro j
  rw [occursAt_drop]
  exact h _

theorem matchRe_seq (a b : Regex) (s : MState) (k : MState → Option MState) :
    matchRe (Regex.seq a b) s k = matchRe a s (fun s' => matchRe b s' k) := rfl

theorem matchRe_star (g : Bool) (r : Regex) (s : MState) (k : MState → Option MState) :
    matchRe (Regex.star g r) s k = starLoop (matchRe r) r.groups g (s.rest.length + 1) s k := rfl

theorem matchRe_close_eq : (fun s => matchRe (lits uidClose Regex.empty) s some) = closeK := by
  funext s
  rw [matchRe_lits]
  simp [closeK, matchRe, uidClose]

theorem lazyScan_close (caps : List (Nat × Nat × Nat)) :
    ∀ (rest : List Char) (pos : Nat), lazyScan closeK caps pos rest =
      (firstOcc uidClose rest).map (fun j => ⟨pos + j + 6, rest.drop (j + 6), caps⟩) := by
  intro rest
  induction rest with
  | nil => intro pos; simp [lazyScan, closeK, firstOcc, uidClose, List.isPrefixOf]
  | cons x xs ih =>
    intro pos
    by_cases hp : uidClose.isPrefixOf (x :: xs) = true
    · simp [lazyScan, closeK, firstOcc, hp]
    · simp only [lazyScan, closeK, firstOcc, hp, ih, Bool.false_eq_true, if_false, Option.map_map]
      congr 1
      funext j
      simp [Nat.add_assoc, Nat.add_comm 1]

theorem uid_matchAt (pos : Nat) (rest : List Char) :
    matchRe uidRe ⟨pos, rest, []⟩ some =
      if uidOpen.isPrefixOf rest then
        (firstOcc uidClose (rest.drop 5)).map
          (fun j => ⟨pos + 5 + j + 6, (rest.drop 5).drop (j + 6), []⟩)
      else none := by
  rw [uidRe, matchRe_lits, matchRe_seq, matchRe_star, matchRe_close_eq]
  show (if uidOpen.isPrefixOf rest then
    starLoop (matchRe anyCls) [] false ((rest.drop 5).length + 1) ⟨pos + 5, rest.drop 5, []⟩ closeK
    else none) = _
  rw [starLoop_lazy_any closeK [] _ _ _ (Nat.lt_succ_self _), lazyScan_close]

theorem searchFrom_uid : ∀ (rest : List Char) (pos : Nat),
    searchFrom uidRe pos rest = uidSpan pos rest := by
  intro rest
  induction rest with
  | nil => intro pos; simp [searchFrom, uid_matchAt, uidSpan, firstOcc, uidOpen, List.isPrefixOf]
  | cons x xs ih =>
    intro pos
    by_cases hp : uidOpen.isPrefixOf (x :: xs) = true
    · simp only [searchFrom, uid_matchAt, hp, if_true, uidSpan, firstOcc]
      cases hc : firstOcc uidClose ((x :: xs).drop 5) with
      | some j => simp
      | none =>
        simp only [Option.map_none', ih]
        have hc' : firstOcc uidClose (xs.drop 4) = none := by simpa using hc
        simp only [uidSpan]
        cases ho : firstOcc uidOpen xs with
        | none => simp
        | some i =>
          have := firstOcc_drop_none uidClose (xs.drop 4) (i + 1) hc'
          rw [List.drop_drop] at this
          have e : 4 + (i + 1) = i + 5 := by omega
          rw [e] at this
          simp [this]
    · simp only [searchFrom, uid_matchAt, hp, Bool.false_eq_true, if_false, ih, uidSpan, firstOcc]
      cases ho : firstOcc uidOpen xs with
      | none => simp
      | some i =>
        simp only [Option.map_some']
        have e : (x :: xs).drop (i + 1 + 5) = xs.drop (i + 5) := by
          have : i + 1 + 5 = (i + 5) + 1 := by omega
          rw [this, List.drop_succ_cons]
        rw [e]
        congr 1
        funext j
        simp [Nat.add_assoc, Nat.add_comm 1]

theorem regex_search_uid (text : List Char) :
    regex_search REGEX_XML_UID text = uidSpan 0 text := by
  simp [regex_search, parse_uid, searchFrom_uid]

theorem occursAt_iff_starts (pat l : List Char) (i : Nat) :
    occursAt pat l i = true ↔ pat <+: l.drop i := by
  simp [occursAt]

theorem occursAt_of_append (a pat c : List Char) : occursAt pat (a ++ pat ++ c) a.length = true := by
  rw [occursAt_iff_starts, List.append_assoc, List.drop_left]
  exact List.prefix_append _ _

theorem append_of_occursAt (pat l : List Char) (i : Nat) (hp : pat ≠ [])
    (h : occursAt pat l i = true) :
    l = l.take i ++ pat ++ l.drop (i + pat.length) := by
  have hl := occursAt_le_length pat l hp i h
  rw [occursAt_iff_starts] at h
  obtain ⟨c, hc⟩ := h
  have hd : l.drop (i + pat.length) = c := by
    rw [← List.drop_drop, ← hc, List.drop_left]
  rw [hd, List.append_assoc, hc, List.take_append_drop]

theorem occursAt_take (pat l : List Char) (n k : Nat) :
    occursAt pat (l.take n) k = true ↔ (occursAt pat l k = true ∧ k + pat.length ≤ n ∨
      (pat = [] ∧ n < k)) := by
  rw [occursAt_iff_starts, occursAt_iff_starts, List.drop_take, List.prefix_take_iff]
  constructor
  · rintro ⟨h1, h2⟩
    by_cases hk : k ≤ n
    · left; exact ⟨h1, by omega⟩
    · right
      refine ⟨?_, by omega⟩
      have : pat.length = 0 := by omega
      exact List.length_eq_zero.mp this
  · rintro (⟨h1, h2⟩ | ⟨h1, _⟩)
    · exact ⟨h1, by omega⟩
    · subst h1; simp

theorem close_not_in_open (r : List Char) (k : Nat) (hk : k < 5) :
    occursAt uidClose (uidOpen ++ r) k = false := by
  interval_cases k <;> simp [occursAt, uidClose, uidOpen, List.isPrefixOf]

theorem uidSpan_isSome_iff (text : List Char) :
    (uidSpan 0 text).isSome ↔ ∃ a b c : List Char, text = a ++ uidOpen ++ b ++ uidClose ++ c := by
  constructor
  · intro h
    unfold uidSpan at h
    cases ho : firstOcc uidOpen text with
    | none => simp [ho] at h
    | some i =>
      cases hc : firstOcc uidClose (text.drop (i + 5)) with
      | none => simp [ho, hc] at h
      | some j =>
        have h1 := ((firstOcc_eq_some _ _ _).mp ho).1
        have h2 := ((firstOcc_eq_some _ _ _).mp hc).1
        have e1 := append_of_occursAt uidOpen text i (by simp [uidOpen]) h1
        have e2 := append_of_occursAt uidClose _ j (by simp [uidClose]) h2
        refine ⟨text.take i, (text.drop (i + 5)).take j, (text.drop (i + 5)).drop (j + 6), ?_⟩
        have e3 : text.take i ++ uidOpen ++ List.take j (text.drop (i + 5)) ++ uidClose ++
            List.drop (j + 6) (text.drop (i + 5)) =
            text.take i ++ uidOpen ++ (List.take j (text.drop (i + 5)) ++ uidClose ++
            List.drop (j + 6) (text.drop (i + 5))) := by simp [List.append_assoc]
        rw [e3]
        have e2' : List.take j (text.drop (i + 5)) ++ uidClose ++
            List.drop (j + 6) (text.drop (i + 5)) = text.drop (i + 5) := e2.symm
        rw [e2']
        exact e1
  · rintro ⟨a, b, c, rfl⟩
    have h1 : occursAt uidOpen (a ++ uidOpen ++ b ++ uidClose ++ c) a.length = true := by
      have := occursAt_of_append a uidOpen (b ++ uidClose ++ c)
      simpa [List.append_assoc] using this
    have h2 : occursAt uidClose (a ++ uidOpen ++ b ++ uidClose ++ c) (a.length + 5 + b.length)
        = true := by
      have := occursAt_of_append (a ++ uidOpen ++ b) uidClose c
      have e : (a ++ uidOpen ++ b).length = a.length + 5 + b.length := by
        simp only [List.length_append]; rfl
      rwa [e] at this
    unfold uidSpan
    cases ho : firstOcc uidOpen (a ++ uidOpen ++ b ++ uidClose ++ c) with
    | none =>
      rw [firstOcc_eq_none] at ho
      rw [ho] at h1
      exact absurd h1 (by simp)
    | some i =>
      have hmin := ((firstOcc_eq_some _ _ _).mp ho).2.2
      have hi : i ≤ a.length := by
        by_contra hlt
        have := hmin a.length (by omega)
        rw [this] at h1
        exact absurd h1 (by simp)
      cases hc : firstOcc uidClose ((a ++ uidOpen ++ b ++ uidClose ++ c).drop (i + 5)) with
      | none =>
        rw [firstOcc_eq_none] at hc
        have := hc (a.length + b.length - i)
        rw [occursAt_drop] at this
        have e : i + 5 + (a.length + b.length - i) = a.length + 5 + b.length := by omega
        rw [e, h2] at this
        exact absurd this (by simp)
      | some j => simp only [hc]; rfl

/-- C9. `REGEX_XML_UID` matches a string enclosed in `<uid>` tags: a text has a
match exactly when it contains `<uid>` followed later by `</uid>`; the first
match starts at the leftmost `<uid>` and ends with the first `</uid>` after it,
whatever characters lie in between, and the matched span contains exactly one
`</uid>` (the one that ends it). -/
theorem REGEX_XML_UID_first_enclosed_span (text : List Char) :
    ((regex_search REGEX_XML_UID text).isSome ↔
        ∃ a b c : List Char, text = a ++ uidOpen ++ b ++ uidClose ++ c) ∧
    (∀ m, regex_search REGEX_XML_UID text = some m →
        ∃ j, m.stop = j + 6 ∧ m.start + 5 ≤ j ∧ m.stop ≤ text.length ∧
          occursAt uidOpen text m.start = true ∧
          (∀ i, i < m.start → occursAt uidOpen text i = false) ∧
          occursAt uidClose text j = true ∧
          (∀ i, m.start + 5 ≤ i → i < j → occursAt uidClose text i = false) ∧
          (∀ i, occursAt uidClose (slice text m.start m.stop) i = true ↔ m.start + i = j)) := by
  rw [regex_search_uid]
  refine ⟨uidSpan_isSome_iff text, ?_⟩
  intro m hm
  unfold uidSpan at hm
  cases ho : firstOcc uidOpen text with
  | none => simp [ho] at hm
  | some s =>
    cases hc : firstOcc uidClose (text.drop (s + 5)) with
    | none => simp [ho, hc] at hm
    | some d =>
      simp only [ho, hc, Option.map_some', Option.some.injEq, Nat.zero_add] at hm
      subst hm
      obtain ⟨o1, _, o3⟩ := (firstOcc_eq_some _ _ _).mp ho
      obtain ⟨c1, _, c3⟩ := (firstOcc_eq_some _ _ _).mp hc
      rw [occursAt_drop] at c1
      have hlen := occursAt_le_length uidClose text (by simp [uidClose]) _ c1
      have hlen' : s + 5 + d + 6 ≤ text.length := by simpa [uidClose] using hlen
      have hbetween : ∀ i, s + 5 ≤ i → i < s + 5 + d → occursAt uidClose text i = false := by
        intro i h1 h2
        have := c3 (i - (s + 5)) (by omega)
        rw [occursAt_drop] at this
        have e : s + 5 + (i - (s + 5)) = i := by omega
        rwa [e] at this
      refine ⟨s + 5 + d, rfl, by simp, hlen', o1, o3, c1, hbetween, ?_⟩
      intro i
      show occursAt uidClose ((text.drop s).take (s + 5 + d + 6 - s)) i = true ↔ s + i = s + 5 + d
      rw [occursAt_take, occursAt_drop]
      constructor
      · rintro (⟨h1, h2⟩ | ⟨h1, _⟩)
        · have h6 : uidClose.length = 6 := rfl
          rw [h6] at h2
          by_contra hne
          have hlt : s + i < s + 5 + d := by omega
          by_cases h5 : i < 5
          · have e1 := append_of_occursAt uidOpen text s (by simp [uidOpen]) o1
            have e2 : text.drop s = uidOpen ++ text.drop (s + uidOpen.length) := by
              have hs : s ≤ text.length := by omega
              conv_lhs => rw [e1]
              rw [List.append_assoc, List.drop_append_of_le_length (by simp; omega)]
              simp [List.drop_take, Nat.min_eq_left hs]
            have := close_not_in_open (text.drop (s + uidOpen.length)) i h5
            rw [← e2, occursAt_drop, h1] at this
            exact absurd this (by simp)
          · have := hbetween (s + i) (by omega) hlt
            rw [h1] at this
            exact absurd this (by simp)
        · exact absurd h1 (by simp [uidClose])
      · intro h
        left
        have e : s + i = s + 5 + d := h
        rw [e]
        refine ⟨c1, ?_⟩
        have h6 : uidClose.length = 6 := rfl
        omega

/-! ### The model pattern `REGEX_XML_MODEL` -/

theorem parse_model : parseRegex REGEX_XML_MODEL = some modelRe := by decide

theorem matchRe_modelItem_other (c : Char) (hc : c ≠ '"') (p : Nat) (rest : List Char)
    (caps : List (Nat × Nat × Nat)) (k : MState → Option MState) :
    matchRe modelItem ⟨p, c :: rest, caps⟩ k = k ⟨p + 1, rest, (2, p, p + 1) :: caps⟩ := by
  simp only [modelItem, matchRe, classAccepts, ClassItem.accepts, List.any_cons, List.any_nil,
    hc, decide_False, Bool.or_false, if_false]
  cases k ⟨p + 1, rest, (2, p, p + 1) :: caps⟩ <;> simp

theorem matchRe_modelItem_end (p : Nat) (tl : List Char)
    (caps : List (Nat × Nat × Nat)) (k : MState → Option MState) :
    matchRe modelItem ⟨p, '"' :: '>' :: tl, caps⟩ k = none := by
  simp [modelItem, matchRe, classAccepts, ClassItem.accepts]

theorem starLoop_model (tl : List Char) (k : MState → Option MState) :
    ∀ (n : List Char) (fuel pos : Nat) (caps : List (Nat × Nat × Nat)),
      '"' ∉ n → n.length < fuel →
      (∀ caps', (k ⟨pos + n.length, '"' :: '>' :: tl, caps'⟩).isSome) →
      ∃ caps', starLoop (matchRe modelItem) modelItem.groups true fuel
          ⟨pos, n ++ '"' :: '>' :: tl, caps⟩ k = k ⟨pos + n.length, '"' :: '>' :: tl, caps'⟩ := by
  intro n
  induction n with
  | nil =>
    intro fuel pos caps _ hf hk
    cases fuel with
    | zero => simp at hf
    | succ f =>
      refine ⟨caps, ?_⟩
      simp [starLoop, clearCaps, matchRe_modelItem_end]
  | cons c n ih =>
    intro fuel pos caps hq hf hk
    cases fuel with
    | zero => simp at hf
    | succ f =>
      have hc : c ≠ '"' := fun e => hq (by simp [e])
      have hn : '"' ∉ n := fun e => hq (by simp [e])
      have hf' : n.length < f := by simpa using hf
      have hk' : ∀ caps', (k ⟨pos + 1 + n.length, '"' :: '>' :: tl, caps'⟩).isSome := by
        intro caps'
        have := hk caps'
        rwa [List.length_cons, ← Nat.add_assoc, Nat.add_right_comm] at this
      obtain ⟨caps', h⟩ := ih f (pos + 1) ((2, pos, pos + 1) ::
        (clearCaps modelItem.groups ⟨pos, c :: (n ++ '"' :: '>' :: tl), caps⟩).caps) hn hf' hk'
      refine ⟨caps', ?_⟩
      have e : pos + (c :: n).length = pos + 1 + n.length := by
        rw [List.length_cons]; omega
      rw [e]
      obtain ⟨r, hr⟩ := Option.isSome_iff_exists.mp (hk' caps')
      rw [hr] at h
      simp only [starLoop, if_true, List.cons_append]
      have e2 : clearCaps modelItem.groups ⟨pos, c :: (n ++ '"' :: '>' :: tl), caps⟩ =
          ⟨pos, c :: (n ++ '"' :: '>' :: tl),
            (clearCaps modelItem.groups ⟨pos, c :: (n ++ '"' :: '>' :: tl), caps⟩).caps⟩ := rfl
      rw [e2, matchRe_modelItem_other c hc]
      simp [h, hr]

theorem matchRe_group (i : Nat) (r : Regex) (s : MState) (k : MState → Option MState) :
    matchRe (Regex.group i r) s k =
      matchRe r s (fun s' => k ⟨s'.pos, s'.rest, (i, s.pos, s'.pos) :: s'.caps⟩) := rfl

theorem matchRe_char_cons (c : Char) (p : Nat) (rest : List Char) (caps : List (Nat × Nat × Nat))
    (k : MState → Option MState) :
    matchRe (Regex.char c) ⟨p, c :: rest, caps⟩ k = k ⟨p + 1, rest, caps⟩ := by
  simp [matchRe]

theorem matchRe_empty (s : MState) (k : MState → Option MState) :
    matchRe Regex.empty s k = k s := rfl

theorem model_matchAt (n : List Char) (hq : '"' ∉ n) :
    ∃ caps', matchRe modelRe ⟨0, modelOpen ++ '"' :: (n ++ ['"', '>']), []⟩ some =
      some ⟨15 + n.length, [], (1, 12, 14 + n.length) :: caps'⟩ := by
  rw [modelRe, matchRe_lits]
  have hpre : modelOpen.isPrefixOf
      (MState.mk 0 (modelOpen ++ '"' :: (n ++ ['"', '>'])) []).rest = true := by
    simp [modelOpen]
  rw [if_pos hpre]
  have hdrop : List.drop modelOpen.length
      (MState.mk 0 (modelOpen ++ '"' :: (n ++ ['"', '>'])) []).rest = '"' :: (n ++ ['"', '>']) := by
    simp [modelOpen]
  rw [hdrop]
  simp only [matchRe_seq, matchRe_group, matchRe_char_cons, matchRe_star, matchRe_empty]
  have hk : ∀ caps', ((fun s' : MState =>
      matchRe (Regex.char '"') s' fun s' =>
        matchRe (Regex.char '>')
          ⟨s'.pos, s'.rest, (1, 0 + modelOpen.length, s'.pos) :: s'.caps⟩ some)
      ⟨0 + modelOpen.length + 1 + n.length, '"' :: '>' :: [], caps'⟩).isSome := by
    intro caps'
    simp [matchRe_char_cons]
  obtain ⟨caps', h⟩ := starLoop_model [] (fun s' : MState =>
      matchRe (Regex.char '"') s' fun s' =>
        matchRe (Regex.char '>')
          ⟨s'.pos, s'.rest, (1, 0 + modelOpen.length, s'.pos) :: s'.caps⟩ some) n ((n ++ ['"', '>']).length + 1)
    (0 + modelOpen.length + 1) [] hq (by simp; omega) hk
  refine ⟨caps', ?_⟩
  rw [h]
  simp only [matchRe_char_cons]
  simp [modelOpen]
  omega

/-- C10. `REGEX_XML_MODEL` matches the name field of a `<model name="...">`
tag: for every name without a double quote the pattern matches the whole
string `<model name="` ++ name ++ `">`, and the first capture group is the name
together with its two enclosing double quotes. -/
theorem REGEX_XML_MODEL_matches_name_field (n : List Char) (hq : '"' ∉ n) :
    ∃ m, regex_search REGEX_XML_MODEL (modelOpen ++ '"' :: (n ++ ['"', '>'])) = some m ∧
      m.start = 0 ∧ m.stop = (modelOpen ++ '"' :: (n ++ ['"', '>'])).length ∧
      ∃ b e, m.group 1 = some (b, e) ∧
        slice (modelOpen ++ '"' :: (n ++ ['"', '>'])) b e = '"' :: (n ++ ['"']) := by
  obtain ⟨caps', h⟩ := model_matchAt n hq
  refine ⟨⟨0, 15 + n.length, (1, 12, 14 + n.length) :: caps'⟩, ?_, rfl, ?_, 12, 14 + n.length, ?_, ?_⟩
  · simp only [regex_search, parse_model]
    have e : modelOpen ++ '"' :: (n ++ ['"', '>']) =
        '<' :: (modelOpen.tail ++ '"' :: (n ++ ['"', '>'])) := rfl
    rw [e] at h ⊢
    simp only [searchFrom, h]
  · simp [modelOpen]; omega
  · simp [Match.group]
  · have e : 14 + n.length - 12 = (n.length + 1) + 1 := by omega
    simp only [slice, e]
    have hd : List.drop 12 (modelOpen ++ '"' :: (n ++ ['"', '>'])) = '"' :: (n ++ ['"', '>']) := by
      simp [modelOpen]
    rw [hd, List.take_succ_cons]
    have e3 : n ++ ['"', '>'] = (n ++ ['"']) ++ ['>'] := by simp
    rw [e3, List.take_left' (by simp)]

/-- The model pattern on `<model name="box_1">`: the whole tag is matched and
group 1 is `"box_1"` with its quotes. -/
theorem REGEX_XML_MODEL_matches_name_field_witness :
    '"' ∉ ['b', 'o', 'x', '_', '1'] ∧
    ∃ m, regex_search REGEX_XML_MODEL
        (modelOpen ++ '"' :: (['b', 'o', 'x', '_', '1'] ++ ['"', '>'])) = some m ∧
      m.start = 0 ∧
      m.stop = (modelOpen ++ '"' :: (['b', 'o', 'x', '_', '1'] ++ ['"', '>'])).length ∧
      ∃ b e, m.group 1 = some (b, e) ∧
        slice (modelOpen ++ '"' :: (['b', 'o', 'x', '_', '1'] ++ ['"', '>'])) b e =
          '"' :: (['b', 'o', 'x', '_', '1'] ++ ['"']) :=
  ⟨by decide, REGEX_XML_MODEL_matches_name_field ['b', 'o', 'x', '_', '1'] (by decide)⟩

/-- The identifier pattern on `a<uid>7</uid></uid>`: the match is the span
`[1, 13)`, which ends with the first closing tag. -/
theorem REGEX_XML_UID_first_enclosed_span_witness :
    regex_search REGEX_XML_UID "a<uid>7</uid></uid>".data = some ⟨1, 13, []⟩ ∧
    ∃ j, 13 = j + 6 ∧ 1 + 5 ≤ j ∧ 13 ≤ "a<uid>7</uid></uid>".data.length ∧
      occursAt uidOpen "a<uid>7</uid></uid>".data 1 = true ∧
      (∀ i, i < 1 → occursAt uidOpen "a<uid>7</uid></uid>".data i = false) ∧
      occursAt uidClose "a<uid>7</uid></uid>".data j = true ∧
      (∀ i, 1 + 5 ≤ i → i < j → occursAt uidClose "a<uid>7</uid></uid>".data i = false) ∧
      (∀ i, occursAt uidClose (slice "a<uid>7</uid></uid>".data 1 13) i = true ↔ 1 + i = j) :=
  ⟨by decide,
    (REGEX_XML_UID_first_enclosed_span "a<uid>7</uid></uid>".data).2 ⟨1, 13, []⟩ (by decide)⟩

/-! ### Topics and message macros -/

/-- C7. Each of the three plugins has its own request topic and its own
response topic: the six topic names of the header are pairwise distinct. -/
theorem api_topics_pairwise_distinct :
    [CAMERA_UTILS_TOPIC, CAMERA_UTILS_RESPONSE_TOPIC, VISUAL_UTILS_TOPIC,
      VISUAL_UTILS_RESPONSE_TOPIC, WORLD_UTILS_TOPIC, WORLD_UTILS_RESPONSE_TOPIC].Nodup ∧
    (∀ p q : Plugin, (requestTopic p = requestTopic q ↔ p = q) ∧
      (responseTopic p = responseTopic q ↔ p = q) ∧ requestTopic p ≠ responseTopic q) := by
  refine ⟨by decide, ?_⟩
  intro p q
  cases p <;> cases q <;> decide

/-- C8. The camera channel has exactly the three request macros `MOVE_REQUEST`,
`CAPTURE_REQUEST` and `PROJECTION_REQUEST`; each has exactly one response macro,
the `CameraUtilsResponse` enumerator of the same operation, and the three
responses (like the three requests) are pairwise distinct, so the mapping is
one-to-one. -/
theorem camera_request_response_one_to_one :
    cameraRequestMacros = ["MOVE_REQUEST", "CAPTURE_REQUEST", "PROJECTION_REQUEST"] ∧
    cameraResponsesFor MOVE_REQUEST = [("MOVE_RESPONSE", MOVE_RESPONSE)] ∧
    cameraResponsesFor CAPTURE_REQUEST = [("CAPTURE_RESPONSE", CAPTURE_RESPONSE)] ∧
    cameraResponsesFor PROJECTION_REQUEST = [("PROJECTION_RESPONSE", PROJECTION_RESPONSE)] ∧
    [MOVE_REQUEST, CAPTURE_REQUEST, PROJECTION_REQUEST].Nodup ∧
    [MOVE_RESPONSE, CAPTURE_RESPONSE, PROJECTION_RESPONSE].Nodup := by
  decide

/-! ### Grid layout -/

theorem perm_cons_eraseIdx {α : Type} : ∀ (l : List α) (i : Nat) (c : α),
    l[i]? = some c → (c :: l.eraseIdx i).Perm l := by
  intro l
  induction l with
  | nil => intro i c h; simp at h
  | cons x xs ih =>
    intro i c h
    cases i with
    | zero =>
      simp at h
      subst h
      simp
    | succ i =>
      simp at h
      have := ih i c h
      simp only [List.eraseIdx_cons_succ]
      exact (List.Perm.swap x c _).trans (this.cons x)

theorem placeEach_spec (rng : Nat → Nat) : ∀ (objs : List ObjectSpec) (i : Nat) (g : GridLayout),
    objs.length ≤ g.free.length →
      ((GridLayout.placeEach rng objs i g).2.map Prod.fst = objs) ∧
      (((GridLayout.placeEach rng objs i g).2.map Prod.snd ++
          (GridLayout.placeEach rng objs i g).1.free).Perm g.free) ∧
      (GridLayout.placeEach rng objs i g).1.occupied =
          (GridLayout.placeEach rng objs i g).2.reverse ++ g.occupied := by
  intro objs
  induction objs with
  | nil => intro i g _; simp [GridLayout.placeEach]
  | cons o os ih =>
    intro i g h
    have hpos : 0 < g.free.length := by simp at h; omega
    have hlt : rng i % g.free.length < g.free.length := Nat.mod_lt _ hpos
    have hget : g.free[rng i % g.free.length]? = some (g.free[rng i % g.free.length]) :=
      List.getElem?_eq_getElem hlt
    have hlen : os.length ≤ (g.free.eraseIdx (rng i % g.free.length)).length := by
      rw [List.length_eraseIdx]
      simp [hlt]
      simp at h
      omega
    simp only [GridLayout.placeEach, GridLayout.drawCell, hget]
    obtain ⟨h1, h2, h3⟩ := ih (i + 1)
      { g with free := g.free.eraseIdx (rng i % g.free.length),
               occupied := (o, g.free[rng i % g.free.length]) :: g.occupied } hlen
    refine ⟨by simp [h1], ?_, ?_⟩
    · simp only [List.map_cons, List.cons_append]
      exact (h2.cons _).trans (perm_cons_eraseIdx _ _ _ hget)
    · simp [h3]

theorem allCells_nodup (rows columns : Nat) : (allCells rows columns).Nodup :=
  List.Nodup.product (List.nodup_range rows) (List.nodup_range columns)

theorem mem_allCells (rows columns : Nat) (c : Cell) :
    c ∈ allCells rows columns ↔ c.1 < rows ∧ c.2 < columns := by
  obtain ⟨a, b⟩ := c
  simp [allCells]

theorem allCells_length (rows columns : Nat) : (allCells rows columns).length = rows * columns := by
  show (List.range rows ×ˢ List.range columns).length = rows * columns
  rw [List.length_product, List.length_range, List.length_range]

/-- C1. On a fresh grid of `rows` by `columns` cells, placing `k ≤ rows * columns`
objects succeeds, whatever the random draws: every object gets a cell, in
order, the cells are pairwise distinct, and every cell lies inside the grid. -/
theorem GridLayout_place_distinct_cells (rows columns : Nat) (objects : List ObjectSpec)
    (rng : Nat → Nat) (hk : objects.length ≤ rows * columns) :
    ∃ g' assignment,
      (GridLayout.create rows columns).place objects rng = (g', Except.ok assignment) ∧
      assignment.map Prod.fst = objects ∧
      assignment.length = objects.length ∧
      (assignment.map Prod.snd).Nodup ∧
      (∀ c ∈ assignment.map Prod.snd, c.1 < rows ∧ c.2 < columns) ∧
      (∀ oc ∈ assignment, oc ∈ g'.occupied ∧ oc.2 ∉ g'.free) := by
  have hfree : (GridLayout.create rows columns).free.length = rows * columns :=
    allCells_length rows columns
  have hle : objects.length ≤ (GridLayout.create rows columns).free.length := by
    rw [hfree]; exact hk
  obtain ⟨h1, h2, h3⟩ := placeEach_spec rng objects 0 (GridLayout.create rows columns) hle
  refine ⟨(GridLayout.placeEach rng objects 0 (GridLayout.create rows columns)).1,
    (GridLayout.placeEach rng objects 0 (GridLayout.create rows columns)).2, ?_, h1, ?_, ?_, ?_, ?_⟩
  · simp only [GridLayout.place]
    rw [if_neg (by omega)]
  · have := congrArg List.length h1
    simpa using this
  · have hn : ((GridLayout.placeEach rng objects 0 (GridLayout.create rows columns)).2.map Prod.snd ++
        (GridLayout.placeEach rng objects 0 (GridLayout.create rows columns)).1.free).Nodup :=
      h2.nodup_iff.mpr (allCells_nodup rows columns)
    exact (List.nodup_append.mp hn).1
  · intro c hc
    have : c ∈ allCells rows columns := h2.subset (List.mem_append_left _ hc)
    exact (mem_allCells rows columns c).mp this
  · intro oc hoc
    constructor
    · rw [h3]; simp [hoc]
    · have hn : ((GridLayout.placeEach rng objects 0 (GridLayout.create rows columns)).2.map Prod.snd ++
          (GridLayout.placeEach rng objects 0 (GridLayout.create rows columns)).1.free).Nodup :=
        h2.nodup_iff.mpr (allCells_nodup rows columns)
      have hd := (List.nodup_append.mp hn).2.2
      intro hmem
      exact hd (List.mem_map_of_mem Prod.snd hoc) hmem

/-- Ten objects on the 4x4 grid of the header, with draws `7 * i + 3`. -/
theorem GridLayout_place_distinct_cells_witness :
    ["a", "b", "c", "d", "e", "f", "g", "h", "i", "j"].length ≤ 4 * 4 ∧
    ∃ g' assignment,
      (GridLayout.create 4 4).place ["a", "b", "c", "d", "e", "f", "g", "h", "i", "j"]
        (fun i => 7 * i + 3) = (g', Except.ok assignment) ∧
      assignment.map Prod.fst = ["a", "b", "c", "d", "e", "f", "g", "h", "i", "j"] ∧
      assignment.length = ["a", "b", "c", "d", "e", "f", "g", "h", "i", "j"].length ∧
      (assignment.map Prod.snd).Nodup ∧
      (∀ c ∈ assignment.map Prod.snd, c.1 < 4 ∧ c.2 < 4) ∧
      (∀ oc ∈ assignment, oc ∈ g'.occupied ∧ oc.2 ∉ g'.free) :=
  ⟨by decide, GridLayout_place_distinct_cells 4 4 _ _ (by decide)⟩

/-- C2. When more objects are requested than there are free cells, `place`
fails with `GridFull` and returns the grid as it was; on a 1x1 grid the first
placement of one object succeeds and a second placement fails with `GridFull`. -/
theorem GridLayout_place_gridFull_atomic (g : GridLayout) (objects : List ObjectSpec)
    (rng : Nat → Nat) (hk : g.free.length < objects.length) :
    g.place objects rng = (g, Except.error PlaceError.GridFull) ∧
    (∀ (first second : ObjectSpec) (r1 r2 : Nat → Nat), ∃ g1,
      (GridLayout.create 1 1).place [first] r1 = (g1, Except.ok [(first, (0, 0))]) ∧
      g1.free = [] ∧
      g1.place [second] r2 = (g1, Except.error PlaceError.GridFull)) := by
  constructor
  · simp [GridLayout.place, hk]
  · intro first second r1 r2
    refine ⟨⟨1, 1, [], [(first, (0, 0))]⟩, ?_, rfl, ?_⟩
    · have h11 : allCells 1 1 = [(0, 0)] := by decide
      simp [GridLayout.place, GridLayout.create, h11, GridLayout.placeEach,
        GridLayout.drawCell, Nat.mod_one]
    · simp [GridLayout.place]

/-- Two objects on a 1x1 grid: `GridFull`, and the grid is returned untouched. -/
theorem GridLayout_place_gridFull_atomic_witness :
    (GridLayout.create 1 1).free.length < ["a", "b"].length ∧
    (GridLayout.create 1 1).place ["a", "b"] (fun _ => 0) =
      (GridLayout.create 1 1, Except.error PlaceError.GridFull) :=
  ⟨by decide,
    (GridLayout_place_gridFull_atomic (GridLayout.create 1 1) ["a", "b"] (fun _ => 0)
      (by decide)).1⟩

/-! ### Annotation writer -/

theorem extend_ordered (b : BoundingBox) (p : Int × Int) (h : b.ordered) :
    (b.extend p).ordered := by
  obtain ⟨h1, h2⟩ := h
  constructor
  · exact le_trans (min_le_left _ _) (le_trans h1 (le_max_left _ _))
  · exact le_trans (min_le_left _ _) (le_trans h2 (le_max_left _ _))

theorem foldl_extend_ordered (ps : List (Int × Int)) :
    ∀ b : BoundingBox, b.ordered → (ps.foldl BoundingBox.extend b).ordered := by
  induction ps with
  | nil => intro b h; exact h
  | cons p ps ih => intro b h; exact ih _ (extend_ordered b p h)

theorem enclosingBox_ordered (ps : List (Int × Int)) (b : BoundingBox)
    (h : enclosingBox ps = some b) : b.ordered := by
  cases ps with
  | nil => simp [enclosingBox] at h
  | cons p ps =>
    simp only [enclosingBox, Option.some.injEq] at h
    subst h
    exact foldl_extend_ordered ps _ ⟨le_refl _, le_refl _⟩

theorem clipCoord_bounds (v : Int) (limit : Nat) :
    0 ≤ clipCoord v limit ∧ clipCoord v limit ≤ limit := by
  unfold clipCoord
  constructor
  · exact le_max_left _ _
  · exact max_le (Int.ofNat_nonneg limit) (min_le_right _ _)

theorem clipCoord_mono (v w : Int) (limit : Nat) (h : v ≤ w) :
    clipCoord v limit ≤ clipCoord w limit := by
  unfold clipCoord
  exact max_le_max (le_refl _) (min_le_min h (le_refl _))

/-- C4. Every bounding box the annotation writer persists satisfies
`0 ≤ xmin ≤ xmax ≤ width` and `0 ≤ ymin ≤ ymax ≤ height`, whatever the
projected points, also far outside the frame. -/
theorem writeAnnotations_box_within_image (objects : List (String × List (Int × Int)))
    (width height : Nat) (a : AnnotationRecord) (ha : a ∈ writeAnnotations objects width height) :
    0 ≤ a.box.xmin ∧ a.box.xmin ≤ a.box.xmax ∧ a.box.xmax ≤ width ∧
    0 ≤ a.box.ymin ∧ a.box.ymin ≤ a.box.ymax ∧ a.box.ymax ≤ height := by
  simp only [writeAnnotations, List.mem_filterMap] at ha
  obtain ⟨obj, _, hobj⟩ := ha
  unfold annotateObject at hobj
  cases hb : enclosingBox obj.2 with
  | none => simp [hb] at hobj
  | some b =>
    simp only [hb, Option.some.injEq] at hobj
    subst hobj
    obtain ⟨hx, hy⟩ := enclosingBox_ordered _ _ hb
    exact ⟨(clipCoord_bounds _ _).1, clipCoord_mono _ _ _ hx, (clipCoord_bounds _ _).2,
      (clipCoord_bounds _ _).1, clipCoord_mono _ _ _ hy, (clipCoord_bounds _ _).2⟩

/-- An object projected far outside a 640x480 frame and one inside it. -/
theorem writeAnnotations_box_within_image_witness :
    (⟨"box_1", ⟨640, 0, 640, 7⟩⟩ : AnnotationRecord) ∈
      writeAnnotations [("box_1", [(5000, -20), (9000, 7)]), ("empty", []),
        ("ball_2", [(10, 12), (3, 40)])] 640 480 ∧
    (0 : Int) ≤ 640 ∧ (640 : Int) ≤ 640 ∧ (640 : Int) ≤ (640 : Nat) ∧
    (0 : Int) ≤ 0 ∧ (0 : Int) ≤ 7 ∧ (7 : Int) ≤ (480 : Nat) :=
  ⟨by decide,
    writeAnnotations_box_within_image
      [("box_1", [(5000, -20), (9000, 7)]), ("empty", []), ("ball_2", [(10, 12), (3, 40)])]
      640 480 ⟨"box_1", ⟨640, 0, 640, 7⟩⟩ (by decide)⟩

/-! ### Iteration state machine -/

theorem pending_setPending_same (s : Orchestrator) (c : Channel) (p : Option PendingRequest) :
    (s.setPending c p).pending c = p := by
  cases c <;> rfl

theorem pending_setPending_other (s : Orchestrator) (c c' : Channel) (p : Option PendingRequest)
    (h : c' ≠ c) : (s.setPending c p).pending c' = s.pending c' := by
  cases c <;> cases c' <;> first | rfl | exact absurd rfl h

theorem stage_setPending (s : Orchestrator) (c : Channel) (p : Option PendingRequest) :
    (s.setPending c p).stage = s.stage := by
  cases c <;> rfl

theorem pending_withStage (s : Orchestrator) (x : Stage) (c : Channel) :
    Orchestrator.pending { s with stage := x } c = s.pending c := by
  cases c <;> rfl

theorem nonePending_of_awaits_none (s : Orchestrator) (h : onlyAwaitedPending s)
    (hs : s.stage.awaits = none) (c : Channel) : s.pending c = none := by
  cases hp : s.pending c with
  | none => rfl
  | some p =>
    have := h c (by simp [hp])
    rw [hs] at this
    exact absurd this (by simp)

theorem inv_send (s : Orchestrator) (c : Channel) (x : Stage) (h : onlyAwaitedPending s)
    (hs : s.stage.awaits = none) (hx : x.awaits = some c) :
    onlyAwaitedPending { send c s with stage := x } := by
  intro c' hc'
  rw [pending_withStage] at hc'
  by_cases e : c' = c
  · subst e; exact hx
  · rw [send, pending_setPending_other _ _ _ _ e, nonePending_of_awaits_none s h hs c'] at hc'
    exact absurd hc' (by simp)

theorem inv_withStage (s : Orchestrator) (x : Stage) (h : onlyAwaitedPending s)
    (hs : s.stage.awaits = none) : onlyAwaitedPending { s with stage := x } := by
  intro c' hc'
  rw [pending_withStage, nonePending_of_awaits_none s h hs c'] at hc'
  exact absurd hc' (by simp)

theorem awaitPoll_cases (c : Channel) (s : Orchestrator) :
    (s.pending c = some ⟨true⟩ ∧ awaitPoll c s = (false, s.setPending c none)) ∨
    (s.pending c ≠ some ⟨true⟩ ∧ awaitPoll c s = (true, s)) := by
  unfold awaitPoll
  cases hp : s.pending c with
  | none => right; simp
  | some p =>
    obtain ⟨b⟩ := p
    cases b
    · right; simp
    · left; simp

theorem inv_afterPoll (s : Orchestrator) (c : Channel) (h : onlyAwaitedPending s)
    (hs : s.stage.awaits = some c) :
    onlyAwaitedPending (afterPoll s (awaitPoll c s)) := by
  rcases awaitPoll_cases c s with ⟨_, e⟩ | ⟨_, e⟩
  · rw [e]
    simp only [afterPoll, Bool.false_eq_true, if_false]
    intro c' hc'
    rw [pending_withStage] at hc'
    by_cases ec : c' = c
    · subst ec
      rw [pending_setPending_same] at hc'
      exact absurd hc' (by simp)
    · rw [pending_setPending_other _ _ _ _ ec] at hc'
      have := h c' hc'
      rw [hs] at this
      exact absurd (Option.some.inj this).symm ec
  · rw [e]
    simpa [afterPoll] using h

theorem orchestrate_onlyAwaitedPending (b : Bool) (s : Orchestrator) (h : onlyAwaitedPending s) :
    onlyAwaitedPending (orchestrate b s) := by
  unfold orchestrate
  split
  · rename_i hs
    split
    · exact inv_send s _ _ h (by rw [hs]; rfl) rfl
    · exact inv_withStage s _ h (by rw [hs]; rfl)
  · rename_i hs; exact inv_afterPoll s _ h (by rw [hs]; rfl)
  · rename_i hs; exact inv_send s _ _ h (by rw [hs]; rfl) rfl
  · rename_i hs; exact inv_afterPoll s _ h (by rw [hs]; rfl)
  · rename_i hs; exact inv_send s _ _ h (by rw [hs]; rfl) rfl
  · rename_i hs; exact inv_afterPoll s _ h (by rw [hs]; rfl)
  · rename_i hs; exact inv_send s _ _ h (by rw [hs]; rfl) rfl
  · rename_i hs; exact inv_afterPoll s _ h (by rw [hs]; rfl)
  · rename_i hs; exact inv_send s _ _ h (by rw [hs]; rfl) rfl
  · rename_i hs; exact inv_afterPoll s _ h (by rw [hs]; rfl)
  · rename_i hs; exact inv_withStage s _ h (by rw [hs]; rfl)
  · rename_i hs; exact inv_withStage s _ h (by rw [hs]; rfl)
  · exact h

theorem onResponse_stage (c : Channel) (s : Orchestrator) : (onResponse c s).stage = s.stage := by
  unfold onResponse
  cases s.pending c <;> simp [stage_setPending]

theorem onResponse_isSome (c c' : Channel) (s : Orchestrator) :
    ((onResponse c s).pending c').isSome = (s.pending c').isSome := by
  unfold onResponse
  cases hp : s.pending c with
  | none => rfl
  | some p =>
    by_cases e : c' = c
    · subst e; simp [pending_setPending_same, hp]
    · simp [pending_setPending_other _ _ _ _ e]

theorem step_response (c : Channel) (s : Orchestrator) :
    step s (Event.response c) = onResponse c s := by
  cases c <;> rfl

theorem step_onlyAwaitedPending (s : Orchestrator) (e : Event) (h : onlyAwaitedPending s) :
    onlyAwaitedPending (step s e) := by
  cases e with
  | orchestrator b => exact orchestrate_onlyAwaitedPending b s h
  | response c =>
    rw [step_response]
    intro c' hc'
    rw [onResponse_isSome] at hc'
    rw [onResponse_stage]
    exact h c' hc'

theorem run_onlyAwaitedPending (es : List Event) :
    ∀ s, onlyAwaitedPending s → onlyAwaitedPending (run s es) := by
  induction es with
  | nil => intro s h; exact h
  | cons e es ih => intro s h; exact ih _ (step_onlyAwaitedPending s e h)

theorem start_onlyAwaitedPending : onlyAwaitedPending Orchestrator.start := by
  intro c hc
  cases c <;> simp [Orchestrator.start, Orchestrator.pending] at hc

theorem orchestrate_cases (b : Bool) (s : Orchestrator) :
    (∃ c, s.stage.awaits = some c ∧ s.stage.next.awaits = none ∧
      orchestrate b s = afterPoll s (awaitPoll c s)) ∨
    (∃ c, s.stage.awaits = none ∧ s.stage.next.awaits = some c ∧
      orchestrate b s = { send c s with stage := s.stage.next }) ∨
    (s.stage.awaits = none ∧ ∃ x, x.awaits = none ∧ orchestrate b s = { s with stage := x } ∧
      (x = s.stage ∨ x = s.stage.next ∨
        (s.stage = Stage.BUILD_LAYOUT ∧ b = false ∧ x = Stage.DONE))) := by
  obtain ⟨stage, w, v, cam⟩ := s
  cases stage
  case BUILD_LAYOUT =>
    cases b
    · right; right
      exact ⟨rfl, Stage.DONE, rfl, rfl, Or.inr (Or.inr ⟨rfl, rfl, rfl⟩)⟩
    · right; left; exact ⟨Channel.world, rfl, rfl, rfl⟩
  case SPAWN_SENT => left; exact ⟨Channel.world, rfl, rfl, rfl⟩
  case SPAWN_ACKED => right; left; exact ⟨Channel.camera, rfl, rfl, rfl⟩
  case CAMERA_MOVE_SENT => left; exact ⟨Channel.camera, rfl, rfl, rfl⟩
  case CAMERA_MOVE_ACKED => right; left; exact ⟨Channel.visual, rfl, rfl, rfl⟩
  case VISUAL_UPDATE_SENT => left; exact ⟨Channel.visual, rfl, rfl, rfl⟩
  case VISUAL_UPDATE_ACKED => right; left; exact ⟨Channel.camera, rfl, rfl, rfl⟩
  case CAPTURE_SENT => left; exact ⟨Channel.camera, rfl, rfl, rfl⟩
  case CAPTURE_ACKED => right; left; exact ⟨Channel.camera, rfl, rfl, rfl⟩
  case PROJECTION_SENT => left; exact ⟨Channel.camera, rfl, rfl, rfl⟩
  case PROJECTION_ACKED =>
    right; right; exact ⟨rfl, Stage.ANNOTATE, rfl, rfl, Or.inr (Or.inl rfl)⟩
  case ANNOTATE => right; right; exact ⟨rfl, Stage.DONE, rfl, rfl, Or.inr (Or.inl rfl)⟩
  case DONE => right; right; exact ⟨rfl, Stage.DONE, rfl, rfl, Or.inl rfl⟩

theorem awaitPoll_wait_iff (c : Channel) (s : Orchestrator) :
    (awaitPoll c s).1 = true ↔ s.pending c ≠ some ⟨true⟩ := by
  rcases awaitPoll_cases c s with ⟨h, e⟩ | ⟨h, e⟩ <;> simp [e, h]

/-- What one event does to a state in which at most the awaited request is
outstanding. -/
theorem step_effect (s : Orchestrator) (e : Event) (h : onlyAwaitedPending s) :
    (∀ c, s.stage.awaits = some c → (step s e).stage ≠ s.stage →
      (step s e).stage = s.stage.next ∧ (step s e).stage.awaits = none ∧
      s.pending c = some ⟨true⟩ ∧ (step s e).pending c = none ∧
      ∃ b, e = Event.orchestrator b) ∧
    (∀ c, (step s e).stage.awaits = some c → (step s e).stage ≠ s.stage →
      (∀ c', s.pending c' = none) ∧ (step s e).pending c = some ⟨false⟩ ∧
      (step s e).stage = s.stage.next) ∧
    ((step s e).stage = s.stage ∨ (step s e).stage = s.stage.next ∨
      (s.stage = Stage.BUILD_LAYOUT ∧ e = Event.orchestrator false ∧
        (step s e).stage = Stage.DONE)) := by
  cases e with
  | response c0 =>
    have hst : (step s (Event.response c0)).stage = s.stage := by
      rw [step_response, onResponse_stage]
    exact ⟨fun c _ hne => absurd hst hne, fun c _ hne => absurd hst hne, Or.inl hst⟩
  | orchestrator b =>
    have hstep : step s (Event.orchestrator b) = orchestrate b s := rfl
    rw [hstep]
    rcases orchestrate_cases b s with ⟨c0, ha, hn, ho⟩ | ⟨c0, ha, hn, ho⟩ | ⟨ha, x, hx, ho, hor⟩
    · rcases awaitPoll_cases c0 s with ⟨hp, ep⟩ | ⟨hp, ep⟩
      · have hst : (orchestrate b s).stage = s.stage.next := by rw [ho, ep]; rfl
        have hpe : (orchestrate b s).pending c0 = none := by
          rw [ho, ep]
          simp only [afterPoll, Bool.false_eq_true, if_false]
          rw [pending_withStage, pending_setPending_same]
        refine ⟨?_, ?_, Or.inr (Or.inl hst)⟩
        · intro c hc _
          have : c = c0 := by rw [ha] at hc; exact (Option.some.inj hc).symm
          subst this
          exact ⟨hst, by rw [hst]; exact hn, hp, hpe, b, rfl⟩
        · intro c hc _
          rw [hst, hn] at hc
          exact absurd hc (by simp)
      · have hst : (orchestrate b s).stage = s.stage := by rw [ho, ep]; rfl
        exact ⟨fun c _ hne => absurd hst hne, fun c _ hne => absurd hst hne, Or.inl hst⟩
    · have hst : (orchestrate b s).stage = s.stage.next := by rw [ho]
      refine ⟨?_, ?_, Or.inr (Or.inl hst)⟩
      · intro c hc _
        rw [ha] at hc
        exact absurd hc (by simp)
      · intro c hc _
        have : c = c0 := by rw [hst, hn] at hc; exact (Option.some.inj hc).symm
        subst this
        refine ⟨nonePending_of_awaits_none s h ha, ?_, hst⟩
        rw [ho, pending_withStage, send, pending_setPending_same]
    · have hst : (orchestrate b s).stage = x := by rw [ho]
      refine ⟨?_, ?_, ?_⟩
      · intro c hc _
        rw [ha] at hc
        exact absurd hc (by simp)
      · intro c hc _
        rw [hst, hx] at hc
        exact absurd hc (by simp)
      · rw [hst]
        rcases hor with e1 | e1 | ⟨e1, e2, e3⟩
        · exact Or.inl e1
        · exact Or.inr (Or.inl e1)
        · exact Or.inr (Or.inr ⟨e1, by rw [e2], e3⟩)

/-- C3. In every state reachable from the start of an iteration, whatever the
interleaving of orchestrator actions and response callbacks: a stage `X_SENT`
is left only for its successor `X_ACKED`, by an orchestrator action that
observed the acknowledgment flag of the stage's channel set (and consumed it);
a request is sent only while no request is outstanding on any channel; stages
are visited in pipeline order; and each `waitFor*` function returns true
exactly when the acknowledgment flag of its channel is not set. -/
theorem orchestrator_waits_for_acknowledgment (trace : List Event) (e : Event) :
    (∀ c, (run Orchestrator.start trace).stage.awaits = some c →
      (step (run Orchestrator.start trace) e).stage ≠ (run Orchestrator.start trace).stage →
        (step (run Orchestrator.start trace) e).stage = (run Orchestrator.start trace).stage.next ∧
        (step (run Orchestrator.start trace) e).stage.awaits = none ∧
        (run Orchestrator.start trace).pending c = some ⟨true⟩ ∧
        (step (run Orchestrator.start trace) e).pending c = none ∧
        ∃ b, e = Event.orchestrator b) ∧
    (∀ c, (step (run Orchestrator.start trace) e).stage.awaits = some c →
      (step (run Orchestrator.start trace) e).stage ≠ (run Orchestrator.start trace).stage →
        (∀ c', (run Orchestrator.start trace).pending c' = none) ∧
        (step (run Orchestrator.start trace) e).pending c = some ⟨false⟩ ∧
        (step (run Orchestrator.start trace) e).stage = (run Orchestrator.start trace).stage.next) ∧
    ((step (run Orchestrator.start trace) e).stage = (run Orchestrator.start trace).stage ∨
      (step (run Orchestrator.start trace) e).stage = (run Orchestrator.start trace).stage.next ∨
      ((run Orchestrator.start trace).stage = Stage.BUILD_LAYOUT ∧ e = Event.orchestrator false ∧
        (step (run Orchestrator.start trace) e).stage = Stage.DONE)) ∧
    (∀ c, ((run Orchestrator.start trace).pending c).isSome = true →
      (run Orchestrator.start trace).stage.awaits = some c) ∧
    (∀ s : Orchestrator,
      ((waitForMove s).1 = true ↔ s.pending Channel.camera ≠ some ⟨true⟩) ∧
      ((waitForVisuals s).1 = true ↔ s.pending Channel.visual ≠ some ⟨true⟩) ∧
      ((waitForCamera s).1 = true ↔ s.pending Channel.camera ≠ some ⟨true⟩) ∧
      ((waitForProjections s).1 = true ↔ s.pending Channel.camera ≠ some ⟨true⟩)) := by
  have hinv := run_onlyAwaitedPending trace _ start_onlyAwaitedPending
  obtain ⟨h1, h2, h3⟩ := step_effect (run Orchestrator.start trace) e hinv
  exact ⟨h1, h2, h3, hinv, fun s => ⟨awaitPoll_wait_iff _ s, awaitPoll_wait_iff _ s,
    awaitPoll_wait_iff _ s, awaitPoll_wait_iff _ s⟩⟩

/-- After the spawn request and its response, the next orchestrator action
leaves `SPAWN_SENT` for `SPAWN_ACKED`, having observed the flag set. -/
theorem orchestrator_waits_for_acknowledgment_witness :
    (run Orchestrator.start [Event.orchestrator true, Event.response Channel.world]).stage
      = Stage.SPAWN_SENT ∧
    (step (run Orchestrator.start [Event.orchestrator true, Event.response Channel.world])
      (Event.orchestrator true)).stage = Stage.SPAWN_ACKED ∧
    (run Orchestrator.start [Event.orchestrator true, Event.response Channel.world]).pending
      Channel.world = some ⟨true⟩ :=
  ⟨by decide,
    ((orchestrator_waits_for_acknowledgment
      [Event.orchestrator true, Event.response Channel.world] (Event.orchestrator true)).1
      Channel.world (by decide) (by decide)).1,
    ((orchestrator_waits_for_acknowledgment
      [Event.orchestrator true, Event.response Channel.world] (Event.orchestrator true)).1
      Channel.world (by decide) (by decide)).2.2.1⟩

end SceneExample
